import Mathlib

/-!
Verification of the algopy UTPM / reverse-mode engine.

The repository stores univariate Taylor polynomials of matrices (UTPM) as
coefficient tensors of shape (D,P,N,M): D Taylor coefficients, P independent
directions, and an (N,M) matrix per (d,p) slice.  Every kernel loops
`for p in range(P)` applying one and the same per-direction computation, so the
per-direction kernels below model a single direction as a list of D ring
elements; the (N,M) slice is an element of a (noncommutative) ring R
(instantiated with a Mathlib matrix ring for the concrete scenarios).
Single-matrix factorizations and solves (numpy.linalg.inv / solve / qr) are the
spec's external "dense linear algebra collaborator" and enter as oracle
function parameters.  The cross-direction (P-axis) structure is modelled
separately and verified in the noninterference development further below.
-/

set_option maxHeartbeats 1000000

namespace AlgopyVerif

/-! ### Per-direction Taylor kernels (UTPM.inv, Mtc.inv, the solve family,
UTPM.__imul__, Mtc.__mul__) -/

section TaylorKernels

variable {R : Type} [Ring R]

/-- One iteration of the `d` loop of `UTPM.inv` (algopy/utp/utpm.py):
`for c in range(1,d+1): out.data[d,p] += dot(A.data[c,p], out.data[d-c,p])`
followed by `out.data[d,p] = dot(-out.data[0,p], out.data[d,p])`. -/
def UTPM.invStep (A : List R) (B : List R) (d : Nat) : List R :=
  let B1 := (List.range' 1 d).foldl
    (fun Bs c => Bs.set d (Bs.getD d 0 + A.getD c 0 * Bs.getD (d - c) 0)) B
  B1.set d (-B1.getD 0 0 * B1.getD d 0)

/-- `UTPM.inv` (algopy/utp/utpm.py, classmethod `inv`), one direction `p`:
the base slice is `inv0 A[0]` (dense inverse collaborator), then the `d` loop
runs `for d in range(1,D)`. -/
def UTPM.inv (inv0 : R → R) (A : List R) : List R :=
  let B0 := (List.replicate A.length (0 : R)).set 0 (inv0 (A.getD 0 0))
  (List.range' 1 (A.length - 1)).foldl (UTPM.invStep A) B0

/-- `Mtc.inv` (algopy.py): after `retval.TC[0,p] = inv(self.TC[0,p])`, the loop
`for d in range(D): for c in range(d):` executes the two statements
`retval.TC[d,p] += dot(retval.TC[c,p], self.TC[d-c,p])` and
`retval.TC[d,p] = -dot(self.TC[0,p], retval.TC[d,p])`, the second one INSIDE
the `c` loop and multiplying by `A[0]` on the left. -/
def Mtc.inv (inv0 : R → R) (A : List R) : List R :=
  let B0 := (List.replicate A.length (0 : R)).set 0 (inv0 (A.getD 0 0))
  (List.range A.length).foldl
    (fun B d => (List.range d).foldl
      (fun Bs c =>
        let Bs1 := Bs.set d (Bs.getD d 0 + Bs.getD c 0 * A.getD (d - c) 0)
        Bs1.set d (-A.getD 0 0 * Bs1.getD d 0)) B) B0

/-- `RawAlgorithmsMixIn._solve` (algopy/utp/utpm.py), one direction:
`y[0] = solve(A[0], x[0])`; then for `d in range(1,D)`:
`tmp = x[d]; for k in range(1,d+1): tmp -= dot(A[k], y[d-k]); y[d] = solve(A[0], tmp)`.
`solve0` is the dense `numpy.linalg.solve` collaborator.  `D = A.length`. -/
def RawAlg.solve (solve0 : R → R → R) (A x : List R) : List R :=
  (List.range' 1 (A.length - 1)).foldl
    (fun y d =>
      let tmp := (List.range' 1 d).foldl
        (fun t k => t - A.getD k 0 * y.getD (d - k) 0) (x.getD d 0)
      y ++ [solve0 (A.getD 0 0) tmp])
    [solve0 (A.getD 0 0) (x.getD 0 0)]

/-- `RawAlgorithmsMixIn._solve_non_UTPM_A` (algopy/utp/utpm.py): `A` is a plain
(non-Taylor) matrix, `x` a Taylor list; `y[0] = solve(A, x[0])`; then for
`d in range(1,D)`: `tmp = x[d]; for k in range(1,d+1): tmp -= dot(A, y[d-k])`
(note: the FULL plain `A` is subtracted for every `k`), `y[d] = solve(A, tmp)`.
`D = x.length`. -/
def RawAlg.solveNonA (solve0 : R → R → R) (A : R) (x : List R) : List R :=
  (List.range' 1 (x.length - 1)).foldl
    (fun y d =>
      let tmp := (List.range' 1 d).foldl
        (fun t _k => t - A * y.getD (d - _k) 0) (x.getD d 0)
      y ++ [solve0 A tmp])
    [solve0 A (x.getD 0 0)]

/-- `RawAlgorithmsMixIn._solve_non_UTPM_x` (algopy/utp/utpm.py): `A` is a
Taylor list, `x` a plain matrix; `y[0] = solve(A[0], x)`; then for
`d in range(1,D)`: `tmp = 0; for k in range(1,d+1): tmp -= dot(A[k], y[d-k])`,
`y[d] = solve(A[0], tmp)`.  `D = A.length`. -/
def RawAlg.solveNonX (solve0 : R → R → R) (A : List R) (x : R) : List R :=
  (List.range' 1 (A.length - 1)).foldl
    (fun y d =>
      let tmp := (List.range' 1 d).foldl
        (fun t k => t - A.getD k 0 * y.getD (d - k) 0) (0 : R)
      y ++ [solve0 (A.getD 0 0) tmp])
    [solve0 (A.getD 0 0) x]

/-- One iteration of the descending `d` loop of `UTPM.__imul__`
(algopy/utp/utpm.py): `self.data[d,p] *= rhs.data[0,p]` followed by
`for c in range(d): self.data[d,p] += self.data[c,p] * rhs.data[d-c,p]`. -/
def UTPM.imulStep (y : List R) (x : List R) (d : Nat) : List R :=
  let x1 := x.set d (x.getD d 0 * y.getD 0 0)
  (List.range d).foldl
    (fun xs c => xs.set d (xs.getD d 0 + xs.getD c 0 * y.getD (d - c) 0)) x1

/-- `UTPM.__imul__` (algopy/utp/utpm.py), non-scalar branch, one direction:
`for d in range(D)[::-1]:` runs the step above from `d = D-1` down to `0`. -/
def UTPM.imul (x y : List R) : List R :=
  ((List.range x.length).reverse).foldl (UTPM.imulStep y) x

/-- `Mtc.__mul__` (algopy.py):
`retval.TC[d] = sum(self.TC[:d+1] * rhs.TC[d::-1], axis=0)`, i.e. the
truncated Cauchy product coefficient `sum_{c=0..d} x[c]*y[d-c]`. -/
def Mtc.mul (x y : List R) : List R :=
  (List.range x.length).map
    (fun d => ((List.range (d + 1)).map
      (fun c => x.getD c 0 * y.getD (d - c) 0)).sum)

end TaylorKernels

/-! ### Concrete scenario S1: 2x2 rational matrices -/

/-- The 2x2 matrix ring used for scenario S1. -/
abbrev M2 : Type := Matrix (Fin 2) (Fin 2) ℚ

/-- Dense 2x2 inverse (the external `numpy.linalg.inv` collaborator: used by
the core only on the base slice `d = 0`). -/
def inv2 (A : M2) : M2 :=
  (A 0 0 * A 1 1 - A 0 1 * A 1 0)⁻¹ • !![A 1 1, -A 0 1; -A 1 0, A 0 0]

/-- Scenario S1 base matrix `A[0] = [[2,0],[0,3]]`. -/
def s1A0 : M2 := !![2, 0; 0, 3]

/-! ### Multi-index enumeration (generate_multi_indices, algopy.py) -/

/-- The recursion `rec(r,n,N,D)` of `generate_multi_indices` (algopy.py).
The counter `k` counts the REMAINING positions, i.e. `k = N-1-n` for the
source's position `n`; at `n == N-1` the last coordinate is set to
`D - sum(j)`, otherwise the loop `for a in range(D - sum(j), -1, -1)` sets
`j[n] = a` and recurses, collecting the rows in order. -/
def gmiRec (D N : Nat) : Nat → List Nat → List (List Nat)
  | 0, j => [j.set (N - 1) (D - j.sum)]
  | k + 1, j =>
      ((List.range (D - j.sum + 1)).reverse).foldl
        (fun T a => T ++ gmiRec D N k (j.set (N - 1 - (k + 1)) a)) []

/-- `generate_multi_indices(N,D)` (algopy.py): starts the recursion at
`n = 0` (i.e. `k = N-1`) on the zero vector `r = numpy.zeros(N)`. -/
def generate_multi_indices (N D : Nat) : List (List Nat) :=
  gmiRec D N (N - 1) (List.replicate N 0)

/-- Reference enumeration: all suffix vectors of length `k+1` with sum `b`,
first coordinate descending.  Used to characterize `gmiRec`. -/
def suffixes : Nat → Nat → List (List Nat)
  | 0, b => [[b]]
  | k + 1, b =>
      ((List.range (b + 1)).reverse).flatMap
        (fun a => (suffixes k (b - a)).map (fun s => a :: s))

/-! ### Shape-aware model of the trace operations (C8).  An ndarray is a
shape together with an entry function (meaningful on in-bounds indices). -/

structure NDArr where
  shape : List Nat
  entry : List Nat → ℚ

/-- `numpy.trace(self.data[d,p,...])` on a `(D,P,N,M)` array: sum of the
diagonal of the trailing two axes. -/
def traceSlice (a : NDArr) (d p : Nat) : ℚ :=
  match a.shape with
  | [_, _, N, M] => ((List.range (min N M)).map (fun i => a.entry [d, p, i, i])).sum
  | _ => 0

/-- `UTPM.trace` (algopy/utp/utpm.py): allocates `numpy.zeros((D,P))` - the
result's trailing (value) shape is `()` - and fills
`retval[d,p] = numpy.trace(self.data[d,p,...])`. -/
def UTPM.traceArr (a : NDArr) : NDArr :=
  ⟨a.shape.take 2, fun idx =>
    match idx with
    | [d, p] => traceSlice a d p
    | _ => 0⟩

/-- `Mtc.trace` (algopy.py): raises TypeError unless `N == M`, then allocates
`zeros((D,P,1,1))` - the result's matrices are 1x1 matrices, per its own
docstring - and fills `retval[d,p,0,0] = trace(self.TC[d,p,:,:])`. -/
def Mtc.traceArr (a : NDArr) : Except String NDArr :=
  match a.shape with
  | [D, P, N, M] =>
      if N ≠ M then Except.error " N == M is required"
      else Except.ok ⟨[D, P, 1, 1], fun idx =>
        match idx with
        | [d, p, 0, 0] => traceSlice a d p
        | _ => 0⟩
  | _ => Except.error "NotImplementedError"

/-- Concrete square input for the C8 witness: `D = P = 1`, `N = 2`, diagonal
entries 3 and 4. -/
def c8Sample : NDArr :=
  ⟨[1, 1, 2, 2], fun idx =>
    if idx = [0, 0, 0, 0] then 3 else if idx = [0, 0, 1, 1] then 4 else 0⟩

/-! ### P-axis kernels (C9): the `_dot` and `_qr` coefficient loops with the
direction axis kept explicit.  Buffers are functions updated pointwise
(`buf[i] = v` becomes `upd1`/`upd2`), exactly following the source's loops;
the single-matrix operations are the spec's external collaborators, bundled
in `MatOps`. -/

def upd1 {M : Type} (f : Nat → M) (i : Nat) (v : M) : Nat → M :=
  fun a => if a = i then v else f a

def upd2 {M : Type} (f : Nat → Nat → M) (i j : Nat) (v : M) : Nat → Nat → M :=
  fun a b => if a = i ∧ b = j then v else f a b

/-- The spec's dense linear-algebra collaborator interface: single-matrix
operations with no Taylor dimension (zero matrix, add, sub, matmul,
transpose, `x -> -x/2`, the strict-lower mask `PL * x`, base-point `qr`,
base-point inverse). -/
structure MatOps (M : Type) where
  mzero : M
  madd : M → M → M
  msub : M → M → M
  mmul : M → M → M
  mtransp : M → M
  mhalfneg : M → M
  mPL : M → M
  qr0 : M → M × M
  minv0 : M → M

variable {M : Type}

/-- `_dot` (algopy/utp/utpm.py): `z[...] = 0` then the triple loop
`for d: for p: for c in range(d+1): z[d,p] += dot(x[c,p], y[d-c,p])`. -/
def RawAlg.dotP (ops : MatOps M) (D P : Nat) (x y : Nat → Nat → M) : Nat → Nat → M :=
  (List.range D).foldl (fun z d =>
    (List.range P).foldl (fun z p =>
      (List.range (d + 1)).foldl (fun z c =>
        upd2 z d p (ops.madd (z d p) (ops.mmul (x c p) (y (d - c) p)))) z) z)
    (fun _ _ => ops.mzero)

/-- base point of `_qr`: `Q[0,p], R[0,p] = qr(A[0,p])` per direction. -/
def RawAlg.qrBaseQ (ops : MatOps M) (P : Nat) (A : Nat → Nat → M) : Nat → Nat → M :=
  (List.range P).foldl (fun Q q => upd2 Q 0 q (ops.qr0 (A 0 q)).1) (fun _ _ => ops.mzero)

def RawAlg.qrBaseR (ops : MatOps M) (P : Nat) (A : Nat → Nat → M) : Nat → Nat → M :=
  (List.range P).foldl (fun Rr q => upd2 Rr 0 q (ops.qr0 (A 0 q)).2) (fun _ _ => ops.mzero)

def RawAlg.qrRinv (ops : MatOps M) (P : Nat) (R : Nat → Nat → M) : Nat → M :=
  (List.range P).foldl (fun Ri q => upd1 Ri q (ops.minv0 (R 0 q))) (fun _ => ops.mzero)

/-- STEP 1 of the `_qr` recurrence: the `dF`/`dG` accumulation loops. -/
def RawAlg.qrdFG (ops : MatOps M) (P DD : Nat) (Q R : Nat → Nat → M) :
    (Nat → M) × (Nat → M) :=
  (List.range' 1 (DD - 1)).foldl (fun fg d =>
    (List.range P).foldl (fun fg q =>
      (upd1 fg.1 q (ops.madd (fg.1 q) (ops.mmul (Q d q) (R (DD - d) q))),
       upd1 fg.2 q (ops.msub (fg.2 q) (ops.mmul (ops.mtransp (Q d q)) (Q (DD - d) q))))) fg)
    ((fun _ => ops.mzero), (fun _ => ops.mzero))

/-- STEP 3: the `X` loop (strict-lower masking then skew-symmetrization,
two sequential assignments to `X[p]`). -/
def RawAlg.qrX (ops : MatOps M) (P : Nat) (Q R : Nat → Nat → M) (H S : Nat → M) : Nat → M :=
  (List.range P).foldl (fun X q =>
    let Xa := upd1 X q
      (ops.mPL (ops.msub (ops.mmul (ops.mmul (ops.mtransp (Q 0 q)) (H q))
        (ops.minv0 (R 0 q))) (S q)))
    upd1 Xa q (ops.msub (Xa q) (ops.mtransp (Xa q))))
    (fun _ => ops.mzero)

/-- STEP 5: writing `R[DD]` then zeroing its strict lower triangle
(two sequential assignments to `R[DD,p]`). -/
def RawAlg.qrRupd (ops : MatOps M) (P DD : Nat) (Q R : Nat → Nat → M) (H K : Nat → M) :
    Nat → Nat → M :=
  (List.range P).foldl (fun Rr q =>
    let Ra := upd2 Rr DD q
      (ops.msub (ops.mmul (ops.mtransp (Q 0 q)) (H q)) (ops.mmul (K q) (R 0 q)))
    upd2 Ra DD q (ops.msub (Ra DD q) (ops.mPL (Ra DD q)))) R

/-- STEP 6: writing `Q[DD]` using the updated `R` and precomputed `Rinv`. -/
def RawAlg.qrQupd (ops : MatOps M) (P DD : Nat) (Q R2 : Nat → Nat → M) (Rinv H : Nat → M) :
    Nat → Nat → M :=
  (List.range P).foldl (fun Qq q =>
    upd2 Qq DD q (ops.mmul (ops.msub (H q) (ops.mmul (Q 0 q) (R2 DD q))) (Rinv q))) Q

/-- STEP 2: `H = A_data[DD] - dF` (an array operation over all directions). -/
def RawAlg.qrH (ops : MatOps M) (P DD : Nat) (A : Nat → Nat → M) (Q R : Nat → Nat → M) :
    Nat → M :=
  fun q => ops.msub (A DD q) ((RawAlg.qrdFG ops P DD Q R).1 q)

/-- STEP 2: `S = -0.5 * dG`. -/
def RawAlg.qrS (ops : MatOps M) (P DD : Nat) (Q R : Nat → Nat → M) : Nat → M :=
  fun q => ops.mhalfneg ((RawAlg.qrdFG ops P DD Q R).2 q)

/-- STEP 4: `K = S + X`. -/
def RawAlg.qrK (ops : MatOps M) (P : Nat) (Q R : Nat → Nat → M) (H S : Nat → M) :
    Nat → M :=
  fun q => ops.madd (S q) (RawAlg.qrX ops P Q R H S q)

/-- One iteration of the `for D in range(1,DT)` loop of `_qr` (STEPs 1-6). -/
def RawAlg.qrStep (ops : MatOps M) (P : Nat) (A : Nat → Nat → M) (Rinv : Nat → M)
    (QR : (Nat → Nat → M) × (Nat → Nat → M)) (DD : Nat) :
    (Nat → Nat → M) × (Nat → Nat → M) :=
  let H := RawAlg.qrH ops P DD A QR.1 QR.2
  let S := RawAlg.qrS ops P DD QR.1 QR.2
  let K := RawAlg.qrK ops P QR.1 QR.2 H S
  let R2 := RawAlg.qrRupd ops P DD QR.1 QR.2 H K
  (RawAlg.qrQupd ops P DD QR.1 R2 Rinv H, R2)

/-- `RawAlgorithmsMixIn._qr` (algopy/utp/utpm.py), full P-direction data:
base-point `qr` per direction, precomputed `Rinv`, then the `D` loop. -/
def RawAlg.qrP (ops : MatOps M) (DT P : Nat) (A : Nat → Nat → M) :
    (Nat → Nat → M) × (Nat → Nat → M) :=
  (List.range' 1 (DT - 1)).foldl
    (RawAlg.qrStep ops P A (RawAlg.qrRinv ops P (RawAlg.qrBaseR ops P A)))
    (RawAlg.qrBaseQ ops P A, RawAlg.qrBaseR ops P A)

/-- Concrete collaborator instance for the C9 witness (1x1 matrices = ℚ;
the strict-lower part of a 1x1 matrix is 0). -/
def c9ops : MatOps ℚ :=
  ⟨0, (· + ·), (· - ·), (· * ·), id, fun a => -(a / 2), fun _ => 0,
   fun a => (a, 1), fun a => a⁻¹⟩

/-- C9 witness data: two inputs agreeing in direction `p = 0` and differing
in direction 1. -/
def c9x : Nat → Nat → ℚ := fun d q => if q = 0 then (d : ℚ) + 1 else 5

def c9x' : Nat → Nat → ℚ := fun d q => if q = 0 then (d : ℚ) + 1 else 7

def c9y : Nat → Nat → ℚ := fun d q => if q = 0 then (d : ℚ) + 2 else 11

def c9y' : Nat → Nat → ℚ := fun d q => if q = 0 then (d : ℚ) + 2 else 13

/-! ### Reverse-mode tape (Mtc / Function / CGraph of algopy.py).  Values
are modelled at a single direction `P = 1`: an `Mtc` value is the list of its
`D` coefficient matrices (the `p` loops of the Mtc kernels apply one and the
same computation per direction; C9 above verifies cross-direction
noninterference).  Matrices are rational row lists; `numpy.dot` raises on
misaligned shapes, modelled in `Except`. -/

abbrev MatQ := List (List ℚ)

def zerosMat (r c : Nat) : MatQ := (List.range r).map (fun _ => (List.range c).map (fun _ => 0))
def matZero (m : MatQ) : MatQ := m.map (fun r => r.map (fun _ => 0))
def matAdd (a b : MatQ) : MatQ := List.zipWith (List.zipWith (· + ·)) a b
def matSub (a b : MatQ) : MatQ := List.zipWith (List.zipWith (· - ·)) a b
def matHad (a b : MatQ) : MatQ := List.zipWith (List.zipWith (· * ·)) a b
def matNeg (a : MatQ) : MatQ := a.map (fun r => r.map (fun v => -v))
def matRecip (a : MatQ) : MatQ := a.map (fun r => r.map (fun v => 1 / v))
def matScale (c : ℚ) (a : MatQ) : MatQ := a.map (fun r => r.map (fun v => c * v))
def matRows (a : MatQ) : Nat := a.length
def matCols (a : MatQ) : Nat := (a.getD 0 []).length
def matTr (a : MatQ) : MatQ := a.transpose
def eyeQ (n : Nat) : MatQ :=
  (List.range n).map (fun i => (List.range n).map (fun j => if i = j then 1 else 0))
def dotRow (r c : List ℚ) : ℚ := (List.zipWith (· * ·) r c).sum

/-- `numpy.dot` on two matrices: raises on misaligned inner dimensions. -/
def matMul (a b : MatQ) : Except String MatQ :=
  if matCols a ≠ matRows b then Except.error "shapes not aligned"
  else Except.ok (a.map (fun r => (matTr b).map (fun c => dotRow r c)))

def matSum (z : MatQ) (l : List MatQ) : MatQ := l.foldl matAdd z

def zeroLikeC (x : List MatQ) : List MatQ := x.map matZero

/-- `Mtc.__add__`: `Mtc(self.TC + rhs.TC)`. -/
def mtcAddC (x y : List MatQ) : List MatQ := List.zipWith matAdd x y

def mtcSubC (x y : List MatQ) : List MatQ := List.zipWith matSub x y

/-- `Mtc.__mul__`: `retval.TC[d] = sum(self.TC[:d+1] * rhs.TC[d::-1], axis=0)`. -/
def mtcMulC (x y : List MatQ) : List MatQ :=
  (List.range x.length).map (fun d =>
    matSum (matZero (x.getD d []))
      ((List.range (d + 1)).map (fun c => matHad (x.getD c []) (y.getD (d - c) []))))

/-- `Mtc.__div__`: `retval.TC[d] = 1/rhs.TC[0] * (self.TC[d] - sum(retval.TC[:d] * rhs.TC[d:0:-1]))`. -/
def mtcDivC (x y : List MatQ) : List MatQ :=
  (List.range x.length).foldl (fun z d =>
    z ++ [matHad (matRecip (y.getD 0 []))
      (matSub (x.getD d [])
        (matSum (matZero (x.getD d []))
          ((List.range d).map (fun c => matHad (z.getD c []) (y.getD (d - c) [])))))]) []

/-- `Mtc.dot`: `retval.TC[d,p] += numpy.dot(self.TC[c,p], rhs.TC[d-c,p])` for `c <= d`. -/
def mtcDotC (x y : List MatQ) : Except String (List MatQ) :=
  (List.range x.length).foldlM (fun z d => do
    let zd ← (List.range (d + 1)).foldlM (fun acc c => do
      let t ← matMul (x.getD c []) (y.getD (d - c) [])
      Except.ok (matAdd acc t))
      (zerosMat (matRows (x.getD d [])) (matCols (y.getD d [])))
    Except.ok (z ++ [zd])) []

/-- `Mtc.trace`: requires `N == M`, returns `1x1` matrices `[[trace]]`. -/
def mtcTraceC (x : List MatQ) : Except String (List MatQ) :=
  if matRows (x.getD 0 []) ≠ matCols (x.getD 0 []) then Except.error " N == M is required"
  else Except.ok (x.map (fun m =>
    [[((List.range (min (matRows m) (matCols m))).map
        (fun i => (m.getD i []).getD i 0)).sum]]))

/-- `Mtc.inv` with the dense-inverse collaborator `dinv` and fallible dots. -/
def mtcInvC (dinv : MatQ → MatQ) (A : List MatQ) : Except String (List MatQ) :=
  let B0 := (zeroLikeC A).set 0 (dinv (A.getD 0 []))
  (List.range A.length).foldlM (fun B d =>
    (List.range d).foldlM (fun Bs c => do
      let t ← matMul (Bs.getD c []) (A.getD (d - c) [])
      let Bs1 := Bs.set d (matAdd (Bs.getD d []) t)
      let t2 ← matMul (A.getD 0 []) (Bs1.getD d [])
      Except.ok (Bs1.set d (matNeg t2))) B) B0

def mtcTransposeC (x : List MatQ) : List MatQ := x.map matTr

/-- A plain (non-Function, non-Mtc) operand: scalar or array. -/
inductive PlainV
  | scl (c : ℚ)
  | arr (m : MatQ)

/-- An `Mtc` value: coefficient list plus the `t0` attribute that
`Function.as_function` stores on wrapped constants.  No arithmetic reads
`t0`; every arithmetic result carries `t0 = none` (fresh object). -/
structure MtcV where
  coeffs : List MatQ
  t0 : Option PlainV

/-- `Mtc.set_zero`: zero the coefficients in place (attributes survive). -/
def MtcV.setZero (v : MtcV) : MtcV := ⟨zeroLikeC v.coeffs, v.t0⟩

/-- `self.x.copy().set_zero()`: `Mtc.copy` builds a fresh object (dropping
the `t0` attribute), then zeroes it. -/
def MtcV.zeroCopy (v : MtcV) : MtcV := ⟨zeroLikeC v.coeffs, none⟩

def MtcV.add (a b : MtcV) : MtcV := ⟨mtcAddC a.coeffs b.coeffs, none⟩
def MtcV.sub (a b : MtcV) : MtcV := ⟨mtcSubC a.coeffs b.coeffs, none⟩
def MtcV.mul (a b : MtcV) : MtcV := ⟨mtcMulC a.coeffs b.coeffs, none⟩
def MtcV.div (a b : MtcV) : MtcV := ⟨mtcDivC a.coeffs b.coeffs, none⟩
def MtcV.dotV (a b : MtcV) : Except String MtcV :=
  (mtcDotC a.coeffs b.coeffs).map (fun c => ⟨c, none⟩)
def MtcV.transposeV (a : MtcV) : MtcV := ⟨mtcTransposeC a.coeffs, none⟩
def MtcV.traceV (a : MtcV) : Except String MtcV :=
  (mtcTraceC a.coeffs).map (fun c => ⟨c, none⟩)
def MtcV.invV (dinv : MatQ → MatQ) (a : MtcV) : Except String MtcV :=
  (mtcInvC dinv a.coeffs).map (fun c => ⟨c, none⟩)

/-- Node kinds recorded by `Function.__init__` (the block-`com` kind, which
needs the block-combiner, is outside the embedded fragment). -/
inductive FType
  | var | add | sub | mul | div | dotF | traceF | invF | transF

structure NodeG where
  ftype : FType
  args : List Nat
  x : MtcV
  xbar : MtcV

structure GState where
  nodes : List NodeG
  dependents : List Nat

def getNode (ns : List NodeG) (i : Nat) : Except String NodeG :=
  match ns[i]? with
  | some n => Except.ok n
  | none => Except.error "IndexError"

def arg1 (args : List Nat) : Except String Nat :=
  match args with
  | i :: _ => Except.ok i
  | _ => Except.error "IndexError"

def arg2 (args : List Nat) : Except String (Nat × Nat) :=
  match args with
  | i :: j :: _ => Except.ok (i, j)
  | _ => Except.error "IndexError"

/-- `self.args[k].xbar.set_zero()` on the node at index `i`. -/
def zeroXbarAt (ns : List NodeG) (i : Nat) : List NodeG :=
  match ns[i]? with
  | some n => ns.set i { n with xbar := n.xbar.setZero }
  | none => ns

/-- `f.xbar += v` (rebinds the attribute to the fresh `__add__` result). -/
def addXbarAt (ns : List NodeG) (i : Nat) (v : MtcV) : List NodeG :=
  match ns[i]? with
  | some n => ns.set i { n with xbar := n.xbar.add v }
  | none => ns

def subXbarAt (ns : List NodeG) (i : Nat) (v : MtcV) : List NodeG :=
  match ns[i]? with
  | some n => ns.set i { n with xbar := n.xbar.sub v }
  | none => ns

/-- `f.xbar = v` (the seeding assignment in `CGraph.reverse`). -/
def setXbarAt (ns : List NodeG) (i : Nat) (v : MtcV) : List NodeG :=
  match ns[i]? with
  | some n => ns.set i { n with xbar := v }
  | none => ns


/-- `Function.eval` (algopy.py) for the operation kinds.  Each branch first
zeroes the operands' adjoints (`self.args[k].xbar.set_zero()`) - these
mutations happen before the return expression is evaluated, so the zeroed
node list is returned even when the value computation fails - then computes
the forward value from the operands' `x` fields.  (`var` nodes return their
stored value; they are created by `CGraph.recordStep` directly.) -/
def Function.eval (dinv : MatQ → MatQ) (ns : List NodeG) (t : FType) (args : List Nat) :
    List NodeG × Except String MtcV :=
  match t with
  | .var => (ns, Except.error "var nodes carry their value")
  | .add =>
    match args with
    | i :: j :: _ =>
      let ns2 := zeroXbarAt (zeroXbarAt ns i) j
      (ns2, do
        let ni ← getNode ns2 i
        let nj ← getNode ns2 j
        Except.ok (ni.x.add nj.x))
    | _ => (ns, Except.error "IndexError")
  | .sub =>
    match args with
    | i :: j :: _ =>
      let ns2 := zeroXbarAt (zeroXbarAt ns i) j
      (ns2, do
        let ni ← getNode ns2 i
        let nj ← getNode ns2 j
        Except.ok (ni.x.sub nj.x))
    | _ => (ns, Except.error "IndexError")
  | .mul =>
    match args with
    | i :: j :: _ =>
      let ns2 := zeroXbarAt (zeroXbarAt ns i) j
      (ns2, do
        let ni ← getNode ns2 i
        let nj ← getNode ns2 j
        Except.ok (ni.x.mul nj.x))
    | _ => (ns, Except.error "IndexError")
  | .div =>
    match args with
    | i :: j :: _ =>
      let ns2 := zeroXbarAt (zeroXbarAt ns i) j
      (ns2, do
        let ni ← getNode ns2 i
        let nj ← getNode ns2 j
        Except.ok (ni.x.div nj.x))
    | _ => (ns, Except.error "IndexError")
  | .dotF =>
    match args with
    | i :: j :: _ =>
      let ns2 := zeroXbarAt (zeroXbarAt ns i) j
      (ns2, do
        let ni ← getNode ns2 i
        let nj ← getNode ns2 j
        ni.x.dotV nj.x)
    | _ => (ns, Except.error "IndexError")
  | .traceF =>
    match args with
    | i :: _ =>
      let ns1 := zeroXbarAt ns i
      (ns1, do
        let ni ← getNode ns1 i
        ni.x.traceV)
    | _ => (ns, Except.error "IndexError")
  | .invF =>
    match args with
    | i :: _ =>
      let ns1 := zeroXbarAt ns i
      (ns1, do
        let ni ← getNode ns1 i
        ni.x.invV dinv)
    | _ => (ns, Except.error "IndexError")
  | .transF =>
    match args with
    | i :: _ =>
      let ns1 := zeroXbarAt ns i
      (ns1, do
        let ni ← getNode ns1 i
        Except.ok ni.x.transposeV)
    | _ => (ns, Except.error "IndexError")

/-- Recording instructions: creating a leaf `Function(value)` or an
operation node `Function([...], function_type=t)`. -/
inductive Instr
  | leaf (v : MtcV)
  | op (t : FType) (args : List Nat)

/-- `Function.__init__` tail: `self.x = self.eval(); self.xbar_from_x();
cgraph.functionList.append(self)` - the new node's adjoint is
`self.x.copy().set_zero()`. -/
def appendNode (g : GState) (t : FType) (args : List Nat) (x : MtcV) : GState :=
  { g with nodes := g.nodes ++ [⟨t, args, x, x.zeroCopy⟩] }

def CGraph.recordStep (dinv : MatQ → MatQ) (g : GState) : Instr → Except String GState
  | .leaf v => Except.ok (appendNode g FType.var [] v)
  | .op t args =>
    match Function.eval dinv g.nodes t args with
    | (ns, Except.ok x) => Except.ok (appendNode { g with nodes := ns } t args x)
    | (_, Except.error e) => Except.error e

/-- Recording a whole program on a fresh graph. -/
def CGraph.build (dinv : MatQ → MatQ) (instrs : List Instr) : Except String GState :=
  instrs.foldlM (CGraph.recordStep dinv) ⟨[], []⟩

/-- `Function.reval` (algopy.py): the local pullback of the node at `i`,
accumulating into its operands' adjoints. -/
def Function.reval (dinv : MatQ → MatQ) (ns : List NodeG) (i : Nat) :
    Except String (List NodeG) := do
  let f ← getNode ns i
  match f.ftype with
  | .var => Except.ok ns
  | .add => do
    let (i0, i1) ← arg2 f.args
    Except.ok (addXbarAt (addXbarAt ns i0 f.xbar) i1 f.xbar)
  | .sub => do
    let (i0, i1) ← arg2 f.args
    Except.ok (subXbarAt (addXbarAt ns i0 f.xbar) i1 f.xbar)
  | .mul => do
    let (i0, i1) ← arg2 f.args
    let n0 ← getNode ns i0
    let n1 ← getNode ns i1
    Except.ok (addXbarAt (addXbarAt ns i0 (f.xbar.mul n1.x)) i1 (f.xbar.mul n0.x))
  | .div => do
    let (i0, i1) ← arg2 f.args
    let n0 ← getNode ns i0
    let n1 ← getNode ns i1
    Except.ok (addXbarAt (addXbarAt ns i0 (f.xbar.div n1.x)) i1
      (f.xbar.mul (n0.x.div (n1.x.mul n1.x))))
  | .dotF => do
    let (i0, i1) ← arg2 f.args
    let n0 ← getNode ns i0
    let n1 ← getNode ns i1
    let t0 ← n1.x.dotV f.xbar
    let ns1 := addXbarAt ns i0 t0.transposeV
    let t1 ← f.xbar.dotV n0.x
    Except.ok (addXbarAt ns1 i1 t1.transposeV)
  | .traceF => do
    let i0 ← arg1 f.args
    let n0 ← getNode ns i0
    let N := matRows (n0.x.coeffs.getD 0 [])
    Except.ok (addXbarAt ns i0
      ⟨f.xbar.coeffs.map (fun m => matScale ((m.getD 0 []).getD 0 0) (eyeQ N)), none⟩)
  | .invF => do
    let i0 ← arg1 f.args
    let inner ← f.xbar.dotV f.x.transposeV
    let outer ← f.x.transposeV.dotV inner
    Except.ok (subXbarAt ns i0 outer)
  | .transF => do
    let i0 ← arg1 f.args
    Except.ok (addXbarAt ns i0 f.xbar.transposeV)

/-- `CGraph.reverse` (algopy.py): if no dependents are set, PRINT a reminder
and return normally (state untouched); otherwise assign the seeds to the
dependents' adjoints and apply `reval` over `functionList[::-1]`. -/
def CGraph.reverse (dinv : MatQ → MatQ) (seeds : List MtcV) (g : GState) :
    Except String GState :=
  if g.dependents.length = 0 then
    Except.ok g
  else do
    let ns ← (g.dependents.enum).foldlM (fun ns nff =>
      match seeds[nff.1]? with
      | some s => Except.ok (setXbarAt ns nff.2 s)
      | none => Except.error "IndexError") g.nodes
    let ns2 ← ((List.range ns.length).reverse).foldlM (Function.reval dinv) ns
    Except.ok { g with nodes := ns2 }

/-- `Function.as_function` (algopy.py): wrap a plain operand as a leaf whose
value is `self.x.copy().set_zero()` and store the operand in `fun.x.t0`. -/
def Function.as_function (g : GState) (iF : Nat) (c : PlainV) :
    Except String (GState × Nat) := do
  let f ← getNode g.nodes iF
  let g1 := appendNode g FType.var [] ⟨zeroLikeC f.x.coeffs, none⟩
  let idx := g1.nodes.length - 1
  let g2 : GState := { g1 with nodes :=
    (match g1.nodes[idx]? with
     | some n => g1.nodes.set idx { n with x := { n.x with t0 := some c } }
     | none => g1.nodes) }
  Except.ok (g2, idx)

/-- `Function.__add__` with a plain right operand:
`rhs = self.as_function(rhs); Function([self, rhs], function_type='add')`. -/
def Function.addConst (dinv : MatQ → MatQ) (g : GState) (iF : Nat) (c : PlainV) :
    Except String GState := do
  let gj ← Function.as_function g iF c
  CGraph.recordStep dinv gj.1 (.op .add [iF, gj.2])



/-- identity stand-in for the dense-inverse collaborator (unused by these
scenarios: no `inv` node occurs). -/
def dinvId : MatQ → MatQ := fun m => m

def withDeps (g : GState) (deps : List Nat) : GState := { g with dependents := deps }

/-- scenario S3: `A` a 2x2 leaf, `x` a 2x1 leaf, `z = dot(A, x)`, `D = 1`. -/
def s3A : MtcV := ⟨[[[1, 2], [3, 4]]], none⟩
def s3x : MtcV := ⟨[[[5], [6]]], none⟩
def s3zbar : MtcV := ⟨[[[1], [1]]], none⟩
def s3instrs : List Instr := [.leaf s3A, .leaf s3x, .op .dotF [0, 1]]

def c4x1 : MtcV := ⟨[[[1]]], none⟩
def c4x2 : MtcV := ⟨[[[1]]], none⟩
def c4seed : MtcV := ⟨[[[1]]], none⟩
def c4instrs : List Instr := [.leaf c4x1, .leaf c4x2, .op .add [0, 1]]
def c4n0 : NodeG := ⟨FType.var, [], ⟨[[[1]]], none⟩, ⟨[[[0]]], none⟩⟩
def c4n1 : NodeG := ⟨FType.var, [], ⟨[[[1]]], none⟩, ⟨[[[0]]], none⟩⟩
def c4nAdd : NodeG := ⟨FType.add, [0, 1], ⟨[[[2]]], none⟩, ⟨[[[0]]], none⟩⟩
def c4xb (v : ℚ) : MtcV := ⟨[[[v]]], none⟩

def c10F : NodeG := ⟨FType.var, [], ⟨[[[7]]], none⟩, ⟨[[[0]]], none⟩⟩



/-! ### Theorems -/

section TaylorKernelTheorems

variable {R : Type} [Ring R]

theorem getD_set_ne (x : List R) (d c : Nat) (v : R) (h : d ≠ c) :
    (x.set d v).getD c 0 = x.getD c 0 := by
  simp [List.getD_eq_getElem?_getD, List.getElem?_set_ne h]

theorem getD_set_self (x : List R) (d : Nat) (v : R) (h : d < x.length) :
    (x.set d v).getD d 0 = v := by
  simp [List.getD_eq_getElem?_getD, List.getElem?_set_self h]

theorem imul_inner (y x : List R) (d : Nat) (hd : d < x.length) :
    ∀ m, m ≤ d → ∀ v : R,
    (List.range m).foldl
      (fun xs c => xs.set d (xs.getD d 0 + xs.getD c 0 * y.getD (d - c) 0)) (x.set d v) =
    x.set d (v + ((List.range m).map (fun c => x.getD c 0 * y.getD (d - c) 0)).sum) := by
  intro m
  induction m with
  | zero => intro _ v; simp
  | succ m ih =>
    intro hm v
    rw [List.range_succ, List.foldl_append, List.map_append, ih (Nat.le_of_succ_le hm)]
    simp only [List.foldl_cons, List.foldl_nil]
    rw [List.set_set, getD_set_self x d _ hd,
        getD_set_ne x d m _ (by omega)]
    simp [add_assoc]

theorem imulStep_spec (y x : List R) (d : Nat) (hd : d < x.length) :
    UTPM.imulStep y x d =
      x.set d (((List.range (d + 1)).map
        (fun c => x.getD c 0 * y.getD (d - c) 0)).sum) := by
  unfold UTPM.imulStep
  rw [imul_inner y x d hd d (le_refl d)]
  rw [List.range_succ, List.map_append, List.sum_append]
  simp [add_comm]

theorem imul_outer (y : List R) :
    ∀ (n : Nat) (x xs : List R), n ≤ xs.length →
    (∀ i, i < n → xs.getD i 0 = x.getD i 0) →
    (((List.range n).reverse).foldl (UTPM.imulStep y) xs).length = xs.length ∧
    (∀ j, (((List.range n).reverse).foldl (UTPM.imulStep y) xs).getD j 0 =
      if j < n then ((List.range (j + 1)).map
        (fun c => x.getD c 0 * y.getD (j - c) 0)).sum
      else xs.getD j 0) := by
  intro n
  induction n with
  | zero => intro x xs _ _; simp
  | succ m ih =>
    intro x xs hlen hpre
    have hstep : (List.range (m + 1)).reverse = m :: (List.range m).reverse := by
      simp [List.range_succ]
    rw [hstep, List.foldl_cons]
    have hmx : m < xs.length := hlen
    have hspec := imulStep_spec y xs m hmx
    have hval : ((List.range (m + 1)).map
        (fun c => xs.getD c 0 * y.getD (m - c) 0)).sum =
        ((List.range (m + 1)).map
        (fun c => x.getD c 0 * y.getD (m - c) 0)).sum := by
      congr 1
      apply List.map_congr_left
      intro c hc
      rw [hpre c (by simpa using hc)]
    rw [hspec, hval]
    set xs1 := xs.set m (((List.range (m + 1)).map
        (fun c => x.getD c 0 * y.getD (m - c) 0)).sum) with hxs1
    have hlen1 : xs1.length = xs.length := by simp [hxs1]
    have hpre1 : ∀ i, i < m → xs1.getD i 0 = x.getD i 0 := by
      intro i hi
      rw [hxs1, getD_set_ne xs m i _ (by omega)]
      exact hpre i (by omega)
    obtain ⟨ihlen, ihget⟩ := ih x xs1 (by omega) hpre1
    refine ⟨by rw [ihlen, hlen1], ?_⟩
    intro j
    rw [ihget j]
    by_cases hjm : j < m
    · rw [if_pos hjm, if_pos (by omega)]
    · by_cases hje : j = m
      · subst hje
        rw [if_neg hjm, if_pos (by omega), hxs1, getD_set_self xs j _ hmx]
      · rw [if_neg hjm, if_neg (by omega), hxs1, getD_set_ne xs m j _ (by omega)]

theorem imul_eq_mul (x y : List R) : UTPM.imul x y = Mtc.mul x y := by
  obtain ⟨hlen, hget⟩ := imul_outer y x.length x x (le_refl _) (fun _ _ => rfl)
  have hdef : UTPM.imul x y = ((List.range x.length).reverse).foldl (UTPM.imulStep y) x := rfl
  have hlen1 : (UTPM.imul x y).length = x.length := by rw [hdef]; exact hlen
  have hlen2 : (Mtc.mul x y).length = x.length := by simp [Mtc.mul]
  apply List.ext_getElem (by rw [hlen1, hlen2])
  intro n h1 h2
  have hn : n < x.length := by rwa [hlen1] at h1
  have hL : (UTPM.imul x y).getD n 0 = (UTPM.imul x y)[n] := by
    rw [List.getD_eq_getElem?_getD, List.getElem?_eq_getElem h1]
    rfl
  have hR : (Mtc.mul x y)[n] =
      ((List.range (n + 1)).map (fun c => x.getD c 0 * y.getD (n - c) 0)).sum := by
    simp [Mtc.mul]
  rw [← hL, hR, hdef]
  have := hget n
  rwa [if_pos hn] at this

/-- C5: for equal-length coefficient lists, `Mtc.__mul__` returns the truncated
Cauchy product `z[d] = sum_{c=0..d} x[c]*y[d-c]`, and the in-place
`UTPM.__imul__`, iterating `d` from `D-1` down to `0`, produces exactly the
same coefficients as the out-of-place formula. -/
theorem claim_C5_mul (x y : List R) (h : x.length = y.length) :
    (∀ d, d < x.length → (Mtc.mul x y).getD d 0 =
      ((List.range (d + 1)).map (fun c => x.getD c 0 * y.getD (d - c) 0)).sum) ∧
    UTPM.imul x y = Mtc.mul x y := by
  refine ⟨?_, imul_eq_mul x y⟩
  intro d hd
  have hdl : d < (Mtc.mul x y).length := by simpa [Mtc.mul] using hd
  rw [List.getD_eq_getElem?_getD, List.getElem?_eq_getElem hdl]
  simp [Mtc.mul]

/-- Witness for C5 at the concrete input `x = [1,2]`, `y = [3,4]` over ℤ. -/
theorem claim_C5_mul_witness : UTPM.imul ([1, 2] : List ℤ) [3, 4] = [3, 10] :=
  ((claim_C5_mul ([1, 2] : List ℤ) [3, 4] rfl).2).trans (by decide)

end TaylorKernelTheorems

theorem foldl_append_eq_flatMap {α β : Type} (f : α → List β) (l : List α) :
    l.foldl (fun T a => T ++ f a) [] = l.flatMap f :=
  (List.flatMap_eq_foldl f l).symm

theorem getD_set_ne2 {α : Type} (x : List α) (w : α) (d c : Nat) (v : α) (h : d ≠ c) :
    (x.set d v).getD c w = x.getD c w := by
  simp [List.getD_eq_getElem?_getD, List.getElem?_set_ne h]

theorem flatMap_congr_mem {α β : Type} {f g : α → List β} :
    ∀ (l : List α), (∀ a ∈ l, f a = g a) → l.flatMap f = l.flatMap g := by
  intro l
  induction l with
  | nil => intro _; rfl
  | cons a t ih =>
    intro h
    rw [List.flatMap_cons, List.flatMap_cons, h a (by simp),
        ih (fun x hx => h x (by simp [hx]))]

theorem pairwise_flatMap {α β : Type} {R : β → β → Prop} {f : α → List β} :
    ∀ {l : List α}, (∀ a ∈ l, (f a).Pairwise R) →
    l.Pairwise (fun a a' => ∀ x ∈ f a, ∀ y ∈ f a', R x y) →
    (l.flatMap f).Pairwise R := by
  intro l
  induction l with
  | nil => intro _ _; simp
  | cons a t ih =>
    intro h1 h2
    rw [List.flatMap_cons, List.pairwise_append]
    rw [List.pairwise_cons] at h2
    refine ⟨h1 a (by simp), ih (fun a' ha' => h1 a' (by simp [ha'])) h2.2, ?_⟩
    intro x hx y hy
    obtain ⟨a', ha', hy'⟩ := List.mem_flatMap.mp hy
    exact h2.1 a' ha' x hx y hy'

theorem lex_gt_irrefl : ∀ l : List Nat, ¬ List.Lex (fun a b : Nat => b < a) l l := by
  intro l
  induction l with
  | nil => intro h; cases h
  | cons a t ih =>
    intro h
    cases h with
    | cons h => exact ih h
    | rel h => exact lt_irrefl a h

theorem mem_suffixes : ∀ (k b : Nat) (l : List Nat),
    l ∈ suffixes k b ↔ l.length = k + 1 ∧ l.sum = b := by
  intro k
  induction k with
  | zero =>
    intro b l
    constructor
    · intro h
      simp [suffixes] at h
      subst h
      simp
    · intro ⟨h1, h2⟩
      match l with
      | [x] => simp at h2; subst h2; simp [suffixes]
      | [] => simp at h1
      | x :: y :: t => simp at h1
  | succ k ih =>
    intro b l
    constructor
    · intro h
      simp only [suffixes, List.mem_flatMap, List.mem_reverse, List.mem_range,
        List.mem_map] at h
      obtain ⟨a, ha, s, hs, rfl⟩ := h
      obtain ⟨h1, h2⟩ := (ih (b - a) s).mp hs
      refine ⟨by simp [h1], ?_⟩
      simp [h2]
      omega
    · intro ⟨h1, h2⟩
      match l with
      | [] => simp at h1
      | a :: s =>
        simp only [suffixes, List.mem_flatMap, List.mem_reverse, List.mem_range,
          List.mem_map]
        refine ⟨a, by simp at h2; omega, s, ?_, rfl⟩
        apply (ih (b - a) s).mpr
        constructor
        · simpa using h1
        · simp at h2; omega

theorem sum_map_range {M : Type} [AddCommMonoid M] (f : Nat → M) :
    ∀ n, ((List.range n).map f).sum = ∑ i ∈ Finset.range n, f i := by
  intro n
  induction n with
  | zero => simp
  | succ n ih => rw [List.range_succ, List.map_append, List.sum_append,
      Finset.sum_range_succ, ih]; simp

theorem hockey_stick (k : Nat) : ∀ b : Nat,
    (∑ m ∈ Finset.range (b + 1), (m + k).choose k) = (b + k + 1).choose (k + 1) := by
  intro b
  induction b with
  | zero => simp
  | succ b ih =>
    rw [Finset.sum_range_succ, ih]
    have h1 : b + 1 + k + 1 = (b + k + 1) + 1 := by omega
    rw [h1, Nat.choose_succ_succ (b + k + 1) k]
    have h2 : b + 1 + k = b + k + 1 := by omega
    rw [h2]
    simp only [Nat.succ_eq_add_one]
    omega

theorem length_suffixes : ∀ (k b : Nat),
    (suffixes k b).length = (b + k).choose k := by
  intro k
  induction k with
  | zero => intro b; simp [suffixes]
  | succ k ih =>
    intro b
    rw [suffixes, List.length_flatMap]
    calc (((List.range (b + 1)).reverse).map
            (List.length ∘ (fun a => (suffixes k (b - a)).map (fun s => a :: s)))).sum
        = (((List.range (b + 1)).reverse).map (fun a => (b - a + k).choose k)).sum := by
          congr 1
          apply List.map_congr_left
          intro a _
          simp [ih]
      _ = (((List.range (b + 1)).map (fun a => (b - a + k).choose k))).sum := by
          rw [← List.sum_reverse, List.map_reverse, List.reverse_reverse]
      _ = ∑ a ∈ Finset.range (b + 1), (b - a + k).choose k := sum_map_range _ _
      _ = ∑ m ∈ Finset.range (b + 1), (m + k).choose k := by
          rw [← Finset.sum_range_reflect (fun m => (m + k).choose k) (b + 1)]
          apply Finset.sum_congr rfl
          intro a _
          congr 2
      _ = (b + k + 1).choose (k + 1) := hockey_stick k b

theorem suffixes_sorted : ∀ k b, (suffixes k b).Pairwise (List.Lex (fun x y : Nat => y < x)) := by
  intro k
  induction k with
  | zero => intro b; simp [suffixes]
  | succ k ih =>
    intro b
    rw [suffixes]
    apply pairwise_flatMap
    · intro a _
      exact List.Pairwise.map _ (fun s1 s2 h => List.Lex.cons h) (ih (b - a))
    · have hrev : ((List.range (b + 1)).reverse).Pairwise (fun a a' : Nat => a' < a) := by
        rw [List.pairwise_reverse]
        exact List.pairwise_lt_range (b + 1)
      apply List.Pairwise.imp ?_ hrev
      intro a a' hlt x hx y hy
      obtain ⟨s, _, rfl⟩ := List.mem_map.mp hx
      obtain ⟨s', _, rfl⟩ := List.mem_map.mp hy
      exact List.Lex.rel hlt

theorem suffixes_nodup (k b : Nat) : (suffixes k b).Nodup := by
  apply List.Pairwise.imp ?_ (suffixes_sorted k b)
  intro l1 l2 h heq
  subst heq
  exact lex_gt_irrefl _ h

theorem sum_set_of_zero (j : List Nat) (n a : Nat) (hn : n < j.length)
    (h0 : j.getD n 0 = 0) : (j.set n a).sum = j.sum + a := by
  have hjn : j[n] = 0 := by
    rw [List.getD_eq_getElem?_getD, List.getElem?_eq_getElem hn] at h0
    simpa using h0
  have hsplit : j.sum = (j.take n).sum + ((j[n] :: j.drop (n + 1)).sum) := by
    conv_lhs => rw [← List.take_append_drop n j]
    rw [List.drop_eq_getElem_cons hn, List.sum_append]
  rw [List.set_eq_take_cons_drop a hn, List.sum_append, List.sum_cons, hsplit,
      List.sum_cons, hjn]
  omega

theorem gmiRec_eq (D N : Nat) :
    ∀ (k : Nat) (j : List Nat), k < N → j.length = N →
    (∀ i, N - 1 - k ≤ i → j.getD i 0 = 0) → j.sum ≤ D →
    gmiRec D N k j = (suffixes k (D - j.sum)).map (fun s => j.take (N - 1 - k) ++ s) := by
  intro k
  induction k with
  | zero =>
    intro j hkN hlen hz hsum
    rw [gmiRec, suffixes]
    simp only [List.map_cons, List.map_nil]
    congr 1
    rw [List.set_eq_take_cons_drop _ (by omega)]
    have hdrop : j.drop (N - 1 + 1) = [] := by
      apply List.drop_eq_nil_of_le
      omega
    rw [hdrop]
    simp
  | succ k ih =>
    intro j hkN hlen hz hsum
    rw [gmiRec, foldl_append_eq_flatMap, suffixes, List.map_flatMap]
    apply flatMap_congr_mem
    intro a ha
    have hab : a ≤ D - j.sum := by
      simp at ha
      omega
    set n := N - 1 - (k + 1) with hn
    have hnlen : n < j.length := by omega
    have hj0 : j.getD n 0 = 0 := hz n (by omega)
    have hsum' : (j.set n a).sum = j.sum + a := sum_set_of_zero j n a hnlen hj0
    have hzeros : ∀ i, N - 1 - k ≤ i → (j.set n a).getD i 0 = 0 := by
      intro i hi
      rw [getD_set_ne2 _ _ _ _ _ (by omega)]
      exact hz i (by omega)
    have hih := ih (j.set n a) (by omega) (by simp [hlen]) hzeros (by omega)
    rw [hih, hsum']
    have hb : D - (j.sum + a) = D - j.sum - a := by omega
    rw [hb, List.map_map]
    apply List.map_congr_left
    intro s _
    simp only [Function.comp]
    have htake : (j.set n a).take (N - 1 - k) = j.take n ++ [a] := by
      rw [List.set_eq_take_cons_drop a hnlen]
      have h1 : N - 1 - k = n + 1 := by omega
      rw [h1, List.take_append_eq_append_take]
      have h2 : (j.take n).length = n := by
        rw [List.length_take]
        omega
      rw [h2, List.take_of_length_le (by omega : (j.take n).length ≤ n + 1)]
      simp [h2]
    rw [htake, List.append_assoc]
    simp

theorem gmi_eq_suffixes (N D : Nat) (hN : 1 ≤ N) :
    generate_multi_indices N D = suffixes (N - 1) D := by
  unfold generate_multi_indices
  rw [gmiRec_eq D N (N - 1) (List.replicate N 0) (by omega) (by simp) ?_ (by simp)]
  · have h0 : N - 1 - (N - 1) = 0 := by omega
    simp [h0]
  · intro i _
    simp only [List.getD_eq_getElem?_getD, List.getElem?_replicate]
    by_cases h : i < N <;> simp [h]

/-- C6: for every `N ≥ 1` and `D`, `generate_multi_indices N D` returns
exactly the multi-indices `i` in `N^N` with `|i| = D` (so every row sums to
`D`), with no duplicates, with `C(N+D-1, D)` rows, ordered lexicographically
descending; and `generate_multi_indices 3 2` is the expected S5 list. -/
theorem claim_C6_multi_indices (N D : Nat) (hN : 1 ≤ N) :
    (∀ l, l ∈ generate_multi_indices N D ↔ l.length = N ∧ l.sum = D) ∧
    (generate_multi_indices N D).length = (N + D - 1).choose D ∧
    (generate_multi_indices N D).Pairwise (List.Lex (fun a b : Nat => b < a)) ∧
    (generate_multi_indices N D).Nodup ∧
    generate_multi_indices 3 2 =
      [[2, 0, 0], [1, 1, 0], [1, 0, 1], [0, 2, 0], [0, 1, 1], [0, 0, 2]] := by
  rw [gmi_eq_suffixes N D hN]
  refine ⟨?_, ?_, suffixes_sorted _ _, suffixes_nodup _ _, by decide⟩
  · intro l
    rw [mem_suffixes]
    have h1 : N - 1 + 1 = N := by omega
    rw [h1]
  · rw [length_suffixes]
    have h1 : D + (N - 1) = N + D - 1 := by omega
    rw [h1]
    have h2 : N + D - 1 - D = N - 1 := by omega
    rw [← h2, Nat.choose_symm (by omega)]

/-- Witness for C6 at `N = 3`, `D = 2` (scenario S5). -/
theorem claim_C6_multi_indices_witness :
    generate_multi_indices 3 2 =
      [[2, 0, 0], [1, 1, 0], [1, 0, 1], [0, 2, 0], [0, 1, 1], [0, 0, 2]] :=
  (claim_C6_multi_indices 3 2 (by decide)).2.2.2.2

/-- C8: amended.  For a square `(D,P,N,N)` input, `UTPM.trace` returns data of
shape `(D,P)` (trailing shape `()`), while `Mtc.trace` returns data of shape
`(D,P,1,1)` (1x1 matrices, as its docstring states) - NOT trailing shape `()`
as the claim asserts for both; in both, the coefficient at `(d,p)` is the
scalar trace of the `(d,p)` slice. -/
theorem claim_C8_trace (a : NDArr) (D P N : Nat) (h : a.shape = [D, P, N, N]) :
    (UTPM.traceArr a).shape = [D, P] ∧
    (∀ d p, (UTPM.traceArr a).entry [d, p] =
      ((List.range N).map (fun i => a.entry [d, p, i, i])).sum) ∧
    ∃ b, Mtc.traceArr a = Except.ok b ∧ b.shape = [D, P, 1, 1] ∧
      ∀ d p, b.entry [d, p, 0, 0] =
        ((List.range N).map (fun i => a.entry [d, p, i, i])).sum := by
  refine ⟨by simp [UTPM.traceArr, h], ?_, ?_⟩
  · intro d p
    simp [UTPM.traceArr, traceSlice, h]
  · refine ⟨⟨[D, P, 1, 1], fun idx =>
        match idx with
        | [d, p, 0, 0] => traceSlice a d p
        | _ => 0⟩, ?_, rfl, ?_⟩
    · simp [Mtc.traceArr, h]
    · intro d p
      simp [traceSlice, h]

/-- Witness for C8 at the concrete square input `c8Sample` (trace 3+4). -/
theorem claim_C8_trace_witness :
    (UTPM.traceArr c8Sample).shape = [1, 1] ∧
    (UTPM.traceArr c8Sample).entry [0, 0] = 7 := by
  refine ⟨(claim_C8_trace c8Sample 1 1 2 rfl).1, ?_⟩
  rw [(claim_C8_trace c8Sample 1 1 2 rfl).2.1 0 0]
  norm_num [c8Sample, List.range_succ]

/-- C8 counterexample: on a `(1,1,1,1)` input, `Mtc.trace` returns data of
shape `[1,1,1,1]`, not the claimed `[D,P] = [1,1]`. -/
theorem claim_C8_trace_counterexample :
    (Mtc.traceArr ⟨[1, 1, 1, 1], fun _ => 1⟩).map NDArr.shape = Except.ok [1, 1, 1, 1] ∧
    ([1, 1, 1, 1] : List Nat) ≠ [1, 1] :=
  ⟨rfl, by decide⟩

section PAxisTheorems

variable {W : Type}

theorem foldl_rel {α ι : Type} (Rel : α → α → Prop) :
    ∀ (l : List ι) (f g : α → ι → α) (a b : α),
    Rel a b → (∀ x y i, i ∈ l → Rel x y → Rel (f x i) (g y i)) →
    Rel (l.foldl f a) (l.foldl g b) := by
  intro l
  induction l with
  | nil => intro f g a b h _; exact h
  | cons i t ih =>
    intro f g a b h hstep
    exact ih f g (f a i) (g b i) (hstep a b i (by simp) h)
      (fun x y i' hi' hxy => hstep x y i' (by simp [hi']) hxy)

theorem upd1_agree {p q : Nat} {v v' : W} {f f' : Nat → W}
    (hf : f p = f' p) (hv : p = q → v = v') : (upd1 f q v) p = (upd1 f' q v') p := by
  unfold upd1
  by_cases h : p = q
  · rw [if_pos h, if_pos h]
    exact hv h
  · rw [if_neg h, if_neg h]
    exact hf

theorem upd2_agree {i q : Nat} {v v' : W} {f f' : Nat → Nat → W} {p : Nat}
    (hf : ∀ d, f d p = f' d p) (hv : p = q → v = v') :
    ∀ d, (upd2 f i q v) d p = (upd2 f' i q v') d p := by
  intro d
  unfold upd2
  by_cases h : d = i ∧ p = q
  · rw [if_pos h, if_pos h]
    exact hv h.2
  · rw [if_neg h, if_neg h]
    exact hf d

theorem dotP_noninterference (ops : MatOps W) (D P p : Nat)
    (x y x' y' : Nat → Nat → W)
    (hx : ∀ d, x d p = x' d p) (hy : ∀ d, y d p = y' d p) :
    ∀ d, RawAlg.dotP ops D P x y d p = RawAlg.dotP ops D P x' y' d p := by
  unfold RawAlg.dotP
  refine foldl_rel (fun (z z' : Nat → Nat → W) => ∀ dd, z dd p = z' dd p)
    _ _ _ _ _ (fun _ => rfl) ?_
  intro z z' d _ hz
  refine foldl_rel (fun (w w' : Nat → Nat → W) => ∀ dd, w dd p = w' dd p)
    _ _ _ _ _ hz ?_
  intro w w' q _ hw
  refine foldl_rel (fun (u u' : Nat → Nat → W) => ∀ dd, u dd p = u' dd p)
    _ _ _ _ _ hw ?_
  intro u u' c _ hu
  apply upd2_agree hu
  intro hpq
  subst hpq
  rw [hu d, hx c, hy (d - c)]

theorem qrBaseQ_agree (ops : MatOps W) (P p : Nat) (A A' : Nat → Nat → W)
    (hA : ∀ d, A d p = A' d p) :
    ∀ dd, RawAlg.qrBaseQ ops P A dd p = RawAlg.qrBaseQ ops P A' dd p := by
  unfold RawAlg.qrBaseQ
  refine foldl_rel (fun (z z' : Nat → Nat → W) => ∀ dd, z dd p = z' dd p)
    _ _ _ _ _ (fun _ => rfl) ?_
  intro z z' q _ hz
  apply upd2_agree hz
  intro hpq
  subst hpq
  rw [hA 0]

theorem qrBaseR_agree (ops : MatOps W) (P p : Nat) (A A' : Nat → Nat → W)
    (hA : ∀ d, A d p = A' d p) :
    ∀ dd, RawAlg.qrBaseR ops P A dd p = RawAlg.qrBaseR ops P A' dd p := by
  unfold RawAlg.qrBaseR
  refine foldl_rel (fun (z z' : Nat → Nat → W) => ∀ dd, z dd p = z' dd p)
    _ _ _ _ _ (fun _ => rfl) ?_
  intro z z' q _ hz
  apply upd2_agree hz
  intro hpq
  subst hpq
  rw [hA 0]

theorem qrRinv_agree (ops : MatOps W) (P p : Nat) (R R' : Nat → Nat → W)
    (hR : ∀ dd, R dd p = R' dd p) :
    RawAlg.qrRinv ops P R p = RawAlg.qrRinv ops P R' p := by
  unfold RawAlg.qrRinv
  refine foldl_rel (fun (z z' : Nat → W) => z p = z' p) _ _ _ _ _ rfl ?_
  intro z z' q _ hz
  apply upd1_agree hz
  intro hpq
  subst hpq
  rw [hR 0]

theorem qrdFG_agree (ops : MatOps W) (P DD p : Nat) (Q R Q' R' : Nat → Nat → W)
    (hQ : ∀ dd, Q dd p = Q' dd p) (hR : ∀ dd, R dd p = R' dd p) :
    (RawAlg.qrdFG ops P DD Q R).1 p = (RawAlg.qrdFG ops P DD Q' R').1 p ∧
    (RawAlg.qrdFG ops P DD Q R).2 p = (RawAlg.qrdFG ops P DD Q' R').2 p := by
  unfold RawAlg.qrdFG
  refine foldl_rel
    (fun (fg fg' : (Nat → W) × (Nat → W)) => fg.1 p = fg'.1 p ∧ fg.2 p = fg'.2 p)
    _ _ _ _ _ ⟨rfl, rfl⟩ ?_
  intro fg fg' d _ hfg
  refine foldl_rel
    (fun (gg gg' : (Nat → W) × (Nat → W)) => gg.1 p = gg'.1 p ∧ gg.2 p = gg'.2 p)
    _ _ _ _ _ hfg ?_
  intro gg gg' q _ hgg
  constructor
  · apply upd1_agree hgg.1
    intro hpq
    subst hpq
    rw [hgg.1, hQ d, hR (DD - d)]
  · apply upd1_agree hgg.2
    intro hpq
    subst hpq
    rw [hgg.2, hQ d, hQ (DD - d)]

theorem qrX_agree (ops : MatOps W) (P p : Nat) (Q R Q' R' : Nat → Nat → W)
    (H S H' S' : Nat → W)
    (hQ : ∀ dd, Q dd p = Q' dd p) (hR : ∀ dd, R dd p = R' dd p)
    (hH : H p = H' p) (hS : S p = S' p) :
    RawAlg.qrX ops P Q R H S p = RawAlg.qrX ops P Q' R' H' S' p := by
  unfold RawAlg.qrX
  refine foldl_rel (fun (z z' : Nat → W) => z p = z' p) _ _ _ _ _ rfl ?_
  intro z z' q _ hz
  have hXa : ∀ a, a = p →
      (upd1 z q (ops.mPL (ops.msub (ops.mmul (ops.mmul (ops.mtransp (Q 0 q)) (H q))
        (ops.minv0 (R 0 q))) (S q)))) a =
      (upd1 z' q (ops.mPL (ops.msub (ops.mmul (ops.mmul (ops.mtransp (Q' 0 q)) (H' q))
        (ops.minv0 (R' 0 q))) (S' q)))) a := by
    intro a ha
    subst ha
    apply upd1_agree hz
    intro hpq
    subst hpq
    rw [hQ 0, hR 0, hH, hS]
  apply upd1_agree (hXa p rfl)
  intro hpq
  subst hpq
  rw [hXa p rfl]

theorem qrRupd_agree (ops : MatOps W) (P DD p : Nat) (Q R Q' R' : Nat → Nat → W)
    (H K H' K' : Nat → W)
    (hQ : ∀ dd, Q dd p = Q' dd p) (hR : ∀ dd, R dd p = R' dd p)
    (hH : H p = H' p) (hK : K p = K' p) :
    ∀ dd, RawAlg.qrRupd ops P DD Q R H K dd p = RawAlg.qrRupd ops P DD Q' R' H' K' dd p := by
  unfold RawAlg.qrRupd
  refine foldl_rel (fun (z z' : Nat → Nat → W) => ∀ dd, z dd p = z' dd p)
    _ _ _ _ _ hR ?_
  intro z z' q _ hz
  have hRa : ∀ dd,
      (upd2 z DD q (ops.msub (ops.mmul (ops.mtransp (Q 0 q)) (H q))
        (ops.mmul (K q) (R 0 q)))) dd p =
      (upd2 z' DD q (ops.msub (ops.mmul (ops.mtransp (Q' 0 q)) (H' q))
        (ops.mmul (K' q) (R' 0 q)))) dd p := by
    apply upd2_agree hz
    intro hpq
    subst hpq
    rw [hQ 0, hR 0, hH, hK]
  apply upd2_agree hRa
  intro hpq
  subst hpq
  rw [hRa DD]

theorem qrQupd_agree (ops : MatOps W) (P DD p : Nat) (Q R2 Q' R2' : Nat → Nat → W)
    (Rinv H Rinv' H' : Nat → W)
    (hQ : ∀ dd, Q dd p = Q' dd p) (hR2 : ∀ dd, R2 dd p = R2' dd p)
    (hRi : Rinv p = Rinv' p) (hH : H p = H' p) :
    ∀ dd, RawAlg.qrQupd ops P DD Q R2 Rinv H dd p =
      RawAlg.qrQupd ops P DD Q' R2' Rinv' H' dd p := by
  unfold RawAlg.qrQupd
  refine foldl_rel (fun (z z' : Nat → Nat → W) => ∀ dd, z dd p = z' dd p)
    _ _ _ _ _ hQ ?_
  intro z z' q _ hz
  apply upd2_agree hz
  intro hpq
  subst hpq
  rw [hQ 0, hR2 DD, hRi, hH]

theorem qrStep_agree (ops : MatOps W) (P p : Nat) (A A' : Nat → Nat → W)
    (Rinv Rinv' : Nat → W) (QR QR' : (Nat → Nat → W) × (Nat → Nat → W)) (DD : Nat)
    (hA : ∀ d, A d p = A' d p) (hRi : Rinv p = Rinv' p)
    (hQ : ∀ dd, QR.1 dd p = QR'.1 dd p) (hR : ∀ dd, QR.2 dd p = QR'.2 dd p) :
    (∀ dd, (RawAlg.qrStep ops P A Rinv QR DD).1 dd p =
      (RawAlg.qrStep ops P A' Rinv' QR' DD).1 dd p) ∧
    (∀ dd, (RawAlg.qrStep ops P A Rinv QR DD).2 dd p =
      (RawAlg.qrStep ops P A' Rinv' QR' DD).2 dd p) := by
  obtain ⟨hdF, hdG⟩ := qrdFG_agree ops P DD p QR.1 QR.2 QR'.1 QR'.2 hQ hR
  have hH : RawAlg.qrH ops P DD A QR.1 QR.2 p = RawAlg.qrH ops P DD A' QR'.1 QR'.2 p := by
    unfold RawAlg.qrH
    rw [hA DD, hdF]
  have hS : RawAlg.qrS ops P DD QR.1 QR.2 p = RawAlg.qrS ops P DD QR'.1 QR'.2 p := by
    unfold RawAlg.qrS
    rw [hdG]
  have hX := qrX_agree ops P p QR.1 QR.2 QR'.1 QR'.2
    (RawAlg.qrH ops P DD A QR.1 QR.2) (RawAlg.qrS ops P DD QR.1 QR.2)
    (RawAlg.qrH ops P DD A' QR'.1 QR'.2) (RawAlg.qrS ops P DD QR'.1 QR'.2)
    hQ hR hH hS
  have hK : RawAlg.qrK ops P QR.1 QR.2 (RawAlg.qrH ops P DD A QR.1 QR.2)
      (RawAlg.qrS ops P DD QR.1 QR.2) p =
      RawAlg.qrK ops P QR'.1 QR'.2 (RawAlg.qrH ops P DD A' QR'.1 QR'.2)
      (RawAlg.qrS ops P DD QR'.1 QR'.2) p := by
    unfold RawAlg.qrK
    rw [hS, hX]
  have hR2 := qrRupd_agree ops P DD p QR.1 QR.2 QR'.1 QR'.2
    (RawAlg.qrH ops P DD A QR.1 QR.2)
    (RawAlg.qrK ops P QR.1 QR.2 (RawAlg.qrH ops P DD A QR.1 QR.2)
      (RawAlg.qrS ops P DD QR.1 QR.2))
    (RawAlg.qrH ops P DD A' QR'.1 QR'.2)
    (RawAlg.qrK ops P QR'.1 QR'.2 (RawAlg.qrH ops P DD A' QR'.1 QR'.2)
      (RawAlg.qrS ops P DD QR'.1 QR'.2))
    hQ hR hH hK
  have hQ2 := qrQupd_agree ops P DD p QR.1
    (RawAlg.qrRupd ops P DD QR.1 QR.2 (RawAlg.qrH ops P DD A QR.1 QR.2)
      (RawAlg.qrK ops P QR.1 QR.2 (RawAlg.qrH ops P DD A QR.1 QR.2)
        (RawAlg.qrS ops P DD QR.1 QR.2)))
    QR'.1
    (RawAlg.qrRupd ops P DD QR'.1 QR'.2 (RawAlg.qrH ops P DD A' QR'.1 QR'.2)
      (RawAlg.qrK ops P QR'.1 QR'.2 (RawAlg.qrH ops P DD A' QR'.1 QR'.2)
        (RawAlg.qrS ops P DD QR'.1 QR'.2)))
    Rinv (RawAlg.qrH ops P DD A QR.1 QR.2)
    Rinv' (RawAlg.qrH ops P DD A' QR'.1 QR'.2)
    hQ hR2 hRi hH
  exact ⟨hQ2, hR2⟩

theorem qrP_noninterference (ops : MatOps W) (DT P p : Nat) (A A' : Nat → Nat → W)
    (hA : ∀ d, A d p = A' d p) :
    (∀ d, (RawAlg.qrP ops DT P A).1 d p = (RawAlg.qrP ops DT P A').1 d p) ∧
    (∀ d, (RawAlg.qrP ops DT P A).2 d p = (RawAlg.qrP ops DT P A').2 d p) := by
  unfold RawAlg.qrP
  have hRi := qrRinv_agree ops P p _ _ (qrBaseR_agree ops P p A A' hA)
  exact foldl_rel
    (fun (QR QR' : (Nat → Nat → W) × (Nat → Nat → W)) =>
      (∀ dd, QR.1 dd p = QR'.1 dd p) ∧ (∀ dd, QR.2 dd p = QR'.2 dd p))
    _ _ _ _ _ ⟨qrBaseQ_agree ops P p A A' hA, qrBaseR_agree ops P p A A' hA⟩
    (fun QR QR' DD _ hQR => qrStep_agree ops P p A A' _ _ QR QR' DD hA hRi hQR.1 hQR.2)

/-- C9: per-direction noninterference for the cited kernels `_dot` and `_qr`:
if two inputs agree on direction `p` (differing arbitrarily on other
directions), the outputs agree on direction `p` at every Taylor order; hence
one run with `P` directions equals `P` separate per-direction runs. -/
theorem claim_C9_noninterference (ops : MatOps W) (D P p : Nat)
    (x y x' y' A A' : Nat → Nat → W)
    (hx : ∀ d, x d p = x' d p) (hy : ∀ d, y d p = y' d p) (hA : ∀ d, A d p = A' d p) :
    (∀ d, RawAlg.dotP ops D P x y d p = RawAlg.dotP ops D P x' y' d p) ∧
    (∀ d, (RawAlg.qrP ops D P A).1 d p = (RawAlg.qrP ops D P A').1 d p) ∧
    (∀ d, (RawAlg.qrP ops D P A).2 d p = (RawAlg.qrP ops D P A').2 d p) :=
  ⟨dotP_noninterference ops D P p x y x' y' hx hy,
   (qrP_noninterference ops D P p A A' hA).1,
   (qrP_noninterference ops D P p A A' hA).2⟩

/-- Witness for C9: concrete 1x1 rational data, `D = P = 2`, direction 0. -/
theorem claim_C9_noninterference_witness :
    RawAlg.dotP c9ops 2 2 c9x c9y 1 0 = RawAlg.dotP c9ops 2 2 c9x' c9y' 1 0 ∧
    (RawAlg.qrP c9ops 2 2 c9x).1 1 0 = (RawAlg.qrP c9ops 2 2 c9x').1 1 0 :=
  ⟨(claim_C9_noninterference c9ops 2 2 0 c9x c9y c9x' c9y' c9x c9x'
      (fun _ => rfl) (fun _ => rfl) (fun _ => rfl)).1 1,
   (claim_C9_noninterference c9ops 2 2 0 c9x c9y c9x' c9y' c9x c9x'
      (fun _ => rfl) (fun _ => rfl) (fun _ => rfl)).2.1 1⟩

end PAxisTheorems


/-! ### Reverse-mode tape theorems -/

theorem ok_bind {α β ε : Type} (a : α) (f : α → Except ε β) :
    (Except.ok a >>= f) = f a := rfl

theorem error_bind {α β ε : Type} (e : ε) (f : α → Except ε β) :
    ((Except.error e : Except ε α) >>= f) = Except.error e := rfl

/-- all coefficient entries are zero -/
def IsZeroC (x : List MatQ) : Prop := x = zeroLikeC x

theorem matZero_idem (m : MatQ) : matZero (matZero m) = matZero m := by
  simp [matZero, List.map_map, Function.comp]

theorem zeroLikeC_idem (x : List MatQ) : zeroLikeC (zeroLikeC x) = zeroLikeC x := by
  simp only [zeroLikeC, List.map_map]
  apply List.map_congr_left
  intro m _
  exact matZero_idem m

theorem isZeroC_zeroLike (x : List MatQ) : IsZeroC (zeroLikeC x) :=
  (zeroLikeC_idem x).symm

theorem isZeroC_setZero (v : MtcV) : IsZeroC v.setZero.coeffs := isZeroC_zeroLike _

theorem isZeroC_zeroCopy (v : MtcV) : IsZeroC v.zeroCopy.coeffs := isZeroC_zeroLike _

theorem allZero_zeroXbarAt {ns : List NodeG} (h : ∀ n ∈ ns, IsZeroC n.xbar.coeffs)
    (i : Nat) : ∀ n ∈ zeroXbarAt ns i, IsZeroC n.xbar.coeffs := by
  intro n hn
  unfold zeroXbarAt at hn
  cases hget : ns[i]? with
  | none => rw [hget] at hn; exact h n hn
  | some m =>
    rw [hget] at hn
    rcases List.mem_or_eq_of_mem_set hn with h1 | h1
    · exact h n h1
    · subst h1
      exact isZeroC_setZero m.xbar

theorem eval_allZero (dinv : MatQ → MatQ) (t : FType) (args : List Nat)
    (ns : List NodeG) (hz : ∀ n ∈ ns, IsZeroC n.xbar.coeffs) :
    ∀ n ∈ (Function.eval dinv ns t args).1, IsZeroC n.xbar.coeffs := by
  cases t <;> unfold Function.eval <;>
    first
    | exact hz
    | (match args with
       | [] => exact hz
       | [i] =>
         first
         | exact allZero_zeroXbarAt hz i
         | exact hz
       | i :: j :: rest =>
         first
         | exact allZero_zeroXbarAt (allZero_zeroXbarAt hz i) j
         | exact allZero_zeroXbarAt hz i)


theorem recordStep_allZero (dinv : MatQ → MatQ) (g0 : GState) (ins : Instr)
    {g1 : GState} (h : CGraph.recordStep dinv g0 ins = Except.ok g1)
    (h0 : ∀ n ∈ g0.nodes, IsZeroC n.xbar.coeffs) :
    ∀ n ∈ g1.nodes, IsZeroC n.xbar.coeffs := by
  cases ins with
  | leaf v =>
    rw [CGraph.recordStep] at h
    injection h with h1
    subst h1
    intro n hn
    simp only [appendNode, List.mem_append, List.mem_singleton] at hn
    rcases hn with hn | hn
    · exact h0 n hn
    · subst hn
      exact isZeroC_zeroCopy v
  | op t args =>
    rw [CGraph.recordStep] at h
    cases hev : Function.eval dinv g0.nodes t args with
    | mk ns vx =>
      rw [hev] at h
      cases vx with
      | error e => exact absurd h (by simp)
      | ok x =>
        injection h with h1
        subst h1
        intro n hn
        simp only [appendNode, List.mem_append, List.mem_singleton] at hn
        rcases hn with hn | hn
        · have := eval_allZero dinv t args g0.nodes h0
          rw [hev] at this
          exact this n hn
        · subst hn
          exact isZeroC_zeroCopy x

/-- C4 (amended): after recording any instruction sequence on a fresh graph,
EVERY node's adjoint is zero - the zeroing happens during recording (each new
node's adjoint is zero-initialized and operands' adjoints are re-zeroed by
each eval), not in the reverse call. -/
theorem claim_C4_adjoint_zeroing (dinv : MatQ → MatQ) (instrs : List Instr)
    (g : GState) (h : CGraph.build dinv instrs = Except.ok g) :
    ∀ n ∈ g.nodes, IsZeroC n.xbar.coeffs := by
  suffices H : ∀ (il : List Instr) (g0 gg : GState),
      (∀ n ∈ g0.nodes, IsZeroC n.xbar.coeffs) →
      il.foldlM (CGraph.recordStep dinv) g0 = Except.ok gg →
      ∀ n ∈ gg.nodes, IsZeroC n.xbar.coeffs by
    exact H instrs ⟨[], []⟩ g (by simp) h
  intro il
  induction il with
  | nil =>
    intro g0 gg h0 hf
    rw [List.foldlM_nil] at hf
    injection hf with h1
    subst h1
    exact h0
  | cons ins t ih =>
    intro g0 gg h0 hf
    rw [List.foldlM_cons] at hf
    cases hstep : CGraph.recordStep dinv g0 ins with
    | error e => rw [hstep, error_bind] at hf; exact absurd hf (by simp)
    | ok g1 =>
      rw [hstep, ok_bind] at hf
      exact ih g1 gg (recordStep_allZero dinv g0 ins hstep h0) hf


theorem zipAddZeroRow (r : List ℚ) :
    List.zipWith (· + ·) r (r.map (fun _ => (0 : ℚ))) = r := by
  induction r with
  | nil => rfl
  | cons a t ih =>
    simp only [List.map_cons, List.zipWith_cons_cons, add_zero, ih]

theorem matAdd_matZero (m : MatQ) : matAdd m (matZero m) = m := by
  unfold matAdd matZero
  induction m with
  | nil => rfl
  | cons r t ih => simp only [List.map_cons, List.zipWith_cons_cons, ih]
                   rw [zipAddZeroRow]

theorem mtcAddC_zeroLike (x : List MatQ) : mtcAddC x (zeroLikeC x) = x := by
  unfold mtcAddC zeroLikeC
  induction x with
  | nil => rfl
  | cons m t ih => simp only [List.map_cons, List.zipWith_cons_cons, ih]
                   rw [matAdd_matZero]

theorem set_concat_length {α : Type} (l : List α) (a b : α) :
    (l ++ [a]).set l.length b = l ++ [b] := by
  induction l with
  | nil => rfl
  | cons x t ih => simp [List.set_cons_succ, ih]

theorem zeroXbarAt_length (ns : List NodeG) (i : Nat) :
    (zeroXbarAt ns i).length = ns.length := by
  unfold zeroXbarAt
  cases ns[i]? <;> simp

theorem zeroXbarAt_get?_x (ns : List NodeG) (i j : Nat) :
    ((zeroXbarAt ns i)[j]?).map NodeG.x = (ns[j]?).map NodeG.x := by
  unfold zeroXbarAt
  cases hget : ns[i]? with
  | none => rfl
  | some m =>
    dsimp only
    rw [List.getElem?_set]
    by_cases hij : i = j
    · subst hij
      obtain ⟨hlt, -⟩ := List.getElem?_eq_some_iff.mp hget
      rw [if_pos rfl, if_pos hlt, hget]
      rfl
    · rw [if_neg hij]

/-- C10: wrapping a plain operand and adding: `F + c` records a leaf whose
coefficients are all zero (the constant surviving only in the `t0`
attribute), and the add node's forward value equals `F`'s value. -/
theorem claim_C10_add_plain (dinv : MatQ → MatQ) (g : GState) (iF : Nat) (F : NodeG)
    (hF : g.nodes[iF]? = some F) (c : PlainV) :
    ∃ g', Function.addConst dinv g iF c = Except.ok g' ∧
      (g'.nodes[g.nodes.length]?).map (fun n => n.x.coeffs) =
        some (zeroLikeC F.x.coeffs) ∧
      (g'.nodes[g.nodes.length]?).map (fun n => n.x.t0) = some (some c) ∧
      (g'.nodes[g.nodes.length + 1]?).map (fun n => n.x.coeffs) =
        some F.x.coeffs := by
  have hlen : iF < g.nodes.length := by
    obtain ⟨hlt, -⟩ := List.getElem?_eq_some_iff.mp hF
    exact hlt
  have hgetN : getNode g.nodes iF = Except.ok F := by
    unfold getNode
    rw [hF]
  -- the wrapped leaf node before and after storing t0
  set w : MtcV := ⟨zeroLikeC F.x.coeffs, none⟩ with hw
  set wNode : NodeG := ⟨FType.var, [], w, w.zeroCopy⟩ with hwNode
  set wNode' : NodeG := ⟨FType.var, [], ⟨w.coeffs, some c⟩, w.zeroCopy⟩ with hwNode'
  have hAsF : Function.as_function g iF c =
      Except.ok (⟨g.nodes ++ [wNode'], g.dependents⟩, g.nodes.length) := by
    unfold Function.as_function
    rw [hgetN, ok_bind]
    simp only [appendNode, List.length_append, List.length_singleton,
      Nat.add_sub_cancel]
    rw [List.getElem?_concat_length]
    simp only [set_concat_length]
  -- the graph after wrapping
  set g2 : GState := ⟨g.nodes ++ [wNode'], g.dependents⟩ with hg2
  have hg2len : g2.nodes.length = g.nodes.length + 1 := by
    simp [hg2]
  -- evaluate the add node
  set ns2 : List NodeG := zeroXbarAt (zeroXbarAt g2.nodes iF) (g.nodes.length) with hns2
  have hx_iF : (ns2[iF]?).map NodeG.x = some F.x := by
    rw [hns2, zeroXbarAt_get?_x, zeroXbarAt_get?_x, hg2,
      List.getElem?_append_left hlen, hF]
    rfl
  have hx_w : (ns2[g.nodes.length]?).map NodeG.x = some wNode'.x := by
    rw [hns2, zeroXbarAt_get?_x, zeroXbarAt_get?_x, hg2, List.getElem?_concat_length]
    rfl
  obtain ⟨nF, hnF, hnFx⟩ : ∃ n, ns2[iF]? = some n ∧ n.x = F.x := by
    cases hq : ns2[iF]? with
    | none => rw [hq] at hx_iF; exact absurd hx_iF (by simp)
    | some n =>
      rw [hq] at hx_iF
      exact ⟨n, rfl, by injection hx_iF⟩
  obtain ⟨nW, hnW, hnWx⟩ : ∃ n, ns2[g.nodes.length]? = some n ∧ n.x = wNode'.x := by
    cases hq : ns2[g.nodes.length]? with
    | none => rw [hq] at hx_w; exact absurd hx_w (by simp)
    | some n =>
      rw [hq] at hx_w
      exact ⟨n, rfl, by injection hx_w⟩
  have heval : Function.eval dinv g2.nodes FType.add [iF, g.nodes.length] =
      (ns2, Except.ok (nF.x.add nW.x)) := by
    unfold Function.eval
    simp only []
    rw [← hns2]
    unfold getNode
    rw [hnF, hnW, ok_bind, ok_bind]
  have hlen2 : ns2.length = g.nodes.length + 1 := by
    rw [hns2, zeroXbarAt_length, zeroXbarAt_length, hg2len]
  have hvadd : nF.x.add nW.x = ⟨F.x.coeffs, none⟩ := by
    rw [hnFx, hnWx]
    unfold MtcV.add
    rw [hwNode']
    simp only [hw]
    rw [mtcAddC_zeroLike]
  refine ⟨⟨ns2 ++ [⟨FType.add, [iF, g.nodes.length], ⟨F.x.coeffs, none⟩,
    MtcV.zeroCopy ⟨F.x.coeffs, none⟩⟩], g.dependents⟩, ?_, ?_, ?_, ?_⟩
  · unfold Function.addConst
    rw [hAsF, ok_bind]
    unfold CGraph.recordStep
    dsimp only
    rw [heval]
    dsimp only
    rw [hvadd]
    rfl
  · simp only []
    rw [List.getElem?_append_left (by omega), hnW]
    simp [hnWx, hwNode', hw]
  · simp only []
    rw [List.getElem?_append_left (by omega), hnW]
    simp [hnWx, hwNode', hw]
  · simp only []
    rw [← hlen2, List.getElem?_concat_length]
    rfl


/-- C3: on scenario S3 the reverse sweep FAILS: the recorded pullback
`x1bar += (x2 . zbar)^T` multiplies the 2x1 `x` by the 2x1 `zbar`, whose
inner dimensions are misaligned, so `numpy.dot` raises instead of producing
the claimed `Abar`, `xbar`. -/
theorem claim_C3_dot_pullback_s3 :
    (CGraph.build dinvId s3instrs).bind
      (fun g => CGraph.reverse dinvId [s3zbar] (withDeps g [2])) =
    Except.error "shapes not aligned" := by
  simp [CGraph.build, s3instrs, List.foldlM, CGraph.recordStep, Function.eval,
    appendNode, zeroXbarAt, getNode, MtcV.dotV, mtcDotC, matMul, matRows,
    matCols, matTr, dotRow, zerosMat, matAdd, MtcV.add, s3A, s3x, s3zbar, zeroLikeC,
    matZero, MtcV.zeroCopy, MtcV.setZero, List.range_succ, ok_bind, error_bind,
    Except.map, withDeps, CGraph.reverse, Function.reval, setXbarAt, addXbarAt,
    subXbarAt, arg1, arg2, MtcV.transposeV, mtcTransposeC, Except.bind]

/-- C4 counterexample: on `y = x1 + x2` with seed 1, a second `reverse`
without re-recording leaves `x1`'s adjoint at 2, not the 1 that a
zeroed-at-sweep-start semantics (as the claim states) would give:
`CGraph.reverse` never zeroes adjoints. -/
theorem claim_C4_counterexample :
    ((((CGraph.build dinvId c4instrs).bind
      (fun g => CGraph.reverse dinvId [c4seed] (withDeps g [2]))).bind
      (fun g => CGraph.reverse dinvId [c4seed] g)).map
        (fun g => (g.nodes[0]?).map (fun n => n.xbar.coeffs))) =
      Except.ok (some [[[2]]]) ∧
    some [[[(2 : ℚ)]]] ≠ some [[[1]]] := by
  constructor
  · have h1 : CGraph.build dinvId c4instrs = Except.ok ⟨[c4n0, c4n1, c4nAdd], []⟩ := by
      norm_num [CGraph.build, c4instrs, List.foldlM, CGraph.recordStep, Function.eval,
        appendNode, zeroXbarAt, getNode, MtcV.add, mtcAddC, matAdd,
        c4x1, c4x2, zeroLikeC, matZero, MtcV.zeroCopy, MtcV.setZero,
        ok_bind, error_bind, c4n0, c4n1, c4nAdd]
    have h2 : CGraph.reverse dinvId [c4seed] (withDeps ⟨[c4n0, c4n1, c4nAdd], []⟩ [2]) =
        Except.ok ⟨[{ c4n0 with xbar := c4xb 1 }, { c4n1 with xbar := c4xb 1 },
          { c4nAdd with xbar := c4xb 1 }], [2]⟩ := by
      norm_num [CGraph.reverse, withDeps, List.foldlM, Function.reval, setXbarAt,
        addXbarAt, subXbarAt, getNode, arg2, arg1, MtcV.add, mtcAddC, matAdd,
        c4seed, c4n0, c4n1, c4nAdd, c4xb, ok_bind, error_bind, List.range_succ,
        List.enum]
    have h3 : CGraph.reverse dinvId [c4seed]
        ⟨[{ c4n0 with xbar := c4xb 1 }, { c4n1 with xbar := c4xb 1 },
          { c4nAdd with xbar := c4xb 1 }], [2]⟩ =
        Except.ok ⟨[{ c4n0 with xbar := c4xb 2 }, { c4n1 with xbar := c4xb 2 },
          { c4nAdd with xbar := c4xb 1 }], [2]⟩ := by
      norm_num [CGraph.reverse, withDeps, List.foldlM, Function.reval, setXbarAt,
        addXbarAt, subXbarAt, getNode, arg2, arg1, MtcV.add, mtcAddC, matAdd,
        c4seed, c4n0, c4n1, c4nAdd, c4xb, ok_bind, error_bind, List.range_succ,
        List.enum]
    rw [h1]
    simp only [Except.bind]
    rw [h2]
    simp only [Except.bind]
    rw [h3]
    simp [Except.map, c4n0, c4xb]
  · norm_num

/-- Witness for C4's amended theorem at the concrete recording `c4instrs`:
the first node of the recorded graph has a zero adjoint. -/
theorem claim_C4_adjoint_zeroing_witness : IsZeroC c4n0.xbar.coeffs :=
  claim_C4_adjoint_zeroing dinvId c4instrs ⟨[c4n0, c4n1, c4nAdd], []⟩
    (by norm_num [CGraph.build, c4instrs, List.foldlM, CGraph.recordStep, Function.eval,
        appendNode, zeroXbarAt, getNode, MtcV.add, mtcAddC, matAdd,
        c4x1, c4x2, zeroLikeC, matZero, MtcV.zeroCopy, MtcV.setZero,
        ok_bind, error_bind, c4n0, c4n1, c4nAdd])
    c4n0 (by simp)

/-- C7: calling `CGraph.reverse` with an empty dependent list only prints a
reminder and returns normally - no exception reaches the caller - and no
pullback runs: the graph (in particular every adjoint) is unchanged. -/
theorem claim_C7_reverse_no_dependents (dinv : MatQ → MatQ) (seeds : List MtcV)
    (g : GState) (h : g.dependents = []) :
    CGraph.reverse dinv seeds g = Except.ok g := by
  unfold CGraph.reverse
  rw [h]
  rfl

/-- Witness for C7 on a concrete graph with no dependents. -/
theorem claim_C7_reverse_no_dependents_witness :
    CGraph.reverse dinvId [c4seed] ⟨[c4n0], []⟩ = Except.ok ⟨[c4n0], []⟩ :=
  claim_C7_reverse_no_dependents dinvId [c4seed] ⟨[c4n0], []⟩ rfl

/-- Witness for C10 on a one-node graph, wrapping the scalar 5. -/
theorem claim_C10_add_plain_witness :
    ∃ g', Function.addConst dinvId ⟨[c10F], []⟩ 0 (PlainV.scl 5) = Except.ok g' ∧
      (g'.nodes[1]?).map (fun n => n.x.coeffs) = some (zeroLikeC c10F.x.coeffs) ∧
      (g'.nodes[1]?).map (fun n => n.x.t0) = some (some (PlainV.scl 5)) ∧
      (g'.nodes[2]?).map (fun n => n.x.coeffs) = some c10F.x.coeffs :=
  claim_C10_add_plain dinvId ⟨[c10F], []⟩ 0 c10F rfl (PlainV.scl 5)

theorem inv2_s1A0 : inv2 s1A0 = !![1/2, 0; 0, 1/3] := by
  simp [inv2, s1A0]
  norm_num

/-- C1: the claim's recurrence `B[0] = inv(A[0])`,
`B[d] = -B[0] * sum_{c=1..d} A[c] * B[d-c]` holds for `UTPM.inv` on scenario
S1 (`A = [diag(2,3), I]`, giving `[diag(1/2,1/3), diag(-1/4,-1/9)]`), but NOT
for `Mtc.inv`: the old implementation multiplies by `-A[0]` (not `-B[0]`)
inside the `c` loop and returns `inv(A)[1] = -I` instead of `-diag(1/4,1/9)`,
so the part of the claim asserting the recurrence for both implementations
fails on `Mtc.inv`. -/
theorem claim_C1_inv_s1 :
    UTPM.inv inv2 [s1A0, (1 : M2)] =
      [!![1/2, 0; 0, 1/3], !![-(1/4), 0; 0, -(1/9)]] ∧
    Mtc.inv inv2 [s1A0, (1 : M2)] =
      [!![1/2, 0; 0, 1/3], !![-1, 0; 0, -1]] ∧
    (!![-1, 0; 0, -1] : M2) ≠ !![-(1/4), 0; 0, -(1/9)] := by
  refine ⟨?_, ?_, ?_⟩
  · simp [UTPM.inv, UTPM.invStep, List.range', inv2_s1A0]
    ext i j
    fin_cases i <;> fin_cases j <;>
      simp [Matrix.mul_apply, Fin.sum_univ_two, s1A0] <;> norm_num
  · simp [Mtc.inv, List.range_succ, inv2_s1A0]
    ext i j
    fin_cases i <;> fin_cases j <;>
      simp [Matrix.mul_apply, Fin.sum_univ_two, s1A0]
  · intro h
    have h00 := congrFun (congrFun h 0) 0
    norm_num at h00

/-- C2: the solve recurrence `Y[d] = solve(A[0], X[d] - sum_{k=1..d} A[k]*Y[d-k])`
fails for `_solve_non_UTPM_A`: reading the plain `A` as the Taylor polynomial
`[A,0,...]`, the recurrence gives `Y = [1, 2]` on `A = 2`, `X = [2, 4]`
(as `_solve` on the zero-extended `A` confirms), but `_solve_non_UTPM_A`
subtracts `dot(A, y[d-k])` with the full plain `A` for every `k = 1..d` and
returns `Y = [1, 1]`. -/
theorem claim_C2_solve_nonA :
    RawAlg.solveNonA (fun a b => b / a) (2 : ℚ) [2, 4] = [1, 1] ∧
    RawAlg.solve (fun a b => b / a) [(2 : ℚ), 0] [2, 4] = [1, 2] ∧
    ([1, 1] : List ℚ) ≠ [1, 2] := by
  refine ⟨?_, ?_, by norm_num⟩ <;>
    norm_num [RawAlg.solveNonA, RawAlg.solve, List.range']

end AlgopyVerif
